import Mathlib

/- Formal model of the Vastu Architect core: the layout planner
(`generate_layout` in `spatial_optimizer.py`) and the wall / door drafting
engine (`generate_ai_detailed_plan` and its helpers in `vastu_engine.py`).
Python floats are modelled as exact rationals, Python dicts (which preserve
insertion order and position on update) as association lists, and the single
reachable runtime failure (`ZeroDivisionError`) as an `Except` error. -/

namespace VastuArchitect

/-- A room request, `Room(name, (min_w, min_d), (max_w, max_d), priority, layer)`
from `spatial_optimizer.py`. -/
structure Room where
  name : String
  min_w : ℚ
  min_d : ℚ
  max_w : ℚ
  max_d : ℚ
  priority : ℤ
  layer : String
  deriving DecidableEq, Repr

/-- A Vastu constraint record, `VastuConstraint(room_name, allowed_quadrants,
forbidden_quadrants)` from `spatial_optimizer.py`. -/
structure VastuConstraint where
  room_name : String
  allowed : List String
  forbidden : List String
  deriving DecidableEq, Repr

/-- A placed room: the fields of `Room` that `generate_layout` fills in, namely
`current_poly = box(minx, miny, maxx, maxy)` (kept as its bounds) and
`center = (poly.centroid.x, poly.centroid.y)`, which for a box is its midpoint. -/
structure PlacedRoom where
  name : String
  layer : String
  minx : ℚ
  miny : ℚ
  maxx : ℚ
  maxy : ℚ
  center : ℚ × ℚ
  deriving DecidableEq, Repr

/-- ASCII lower-casing of one character code, modelling Python's `str.lower()`
on the ASCII room names. -/
def lowerCode (c : Char) : ℕ :=
  if 65 ≤ c.toNat ∧ c.toNat ≤ 90 then c.toNat + 32 else c.toNat

/-- The lower-cased character codes of a string (`room.name.lower()`). -/
def nameCodes (s : String) : List ℕ := s.data.map lowerCode

/-- Prefix test on code lists (helper for the Python substring operator). -/
def chStarts : List ℕ → List ℕ → Bool
  | [], _ => true
  | _ :: _, [] => false
  | p :: ps, c :: cs => p == c && chStarts ps cs

/-- Substring occurrence test on code lists. -/
def chSub (pat : List ℕ) : List ℕ → Bool
  | [] => chStarts pat []
  | c :: cs => chStarts pat (c :: cs) || chSub pat cs

/-- The Python test `pat in s.lower()` on strings. -/
def strContains (s pat : String) : Bool := chSub (nameCodes pat) (nameCodes s)

/-- Row classification (`generate_layout` lines 64-69): a room goes to the top
(north) row when its lowercased name contains one of the fixed keywords,
otherwise to the bottom (south) row. -/
def isTopRoom (r : Room) : Bool :=
  strContains r.name "living" || strContains r.name "hall" ||
    strContains r.name "toilet" || strContains r.name "bath" ||
    strContains r.name "north" || strContains r.name "nw" ||
    strContains r.name "ne"

/-- The within-row ordering key `sort_key` (`generate_layout` lines 72-78). -/
def sort_key (r : Room) : ℕ :=
  if strContains r.name "toilet" then 0
  else if strContains r.name "living" then 1
  else if strContains r.name "master" then 0
  else if strContains r.name "kitchen" then 1
  else 2

/-- Stable insertion of a room into a key-sorted list (equal keys keep the
earlier element first, as Python's stable `list.sort`). -/
def insSorted (key : Room → ℕ) (a : Room) : List Room → List Room
  | [] => [a]
  | b :: l => if key a ≤ key b then a :: b :: l else b :: insSorted key a l

/-- Stable sort by an integer key, matching Python's stable `list.sort(key=...)`. -/
def sortByKey (key : Room → ℕ) : List Room → List Room
  | [] => []
  | a :: l => insSorted key a (sortByKey key l)

/-- Representative width `(r.min_w + r.max_w)/2` (`w_req` in the source). -/
def repW (r : Room) : ℚ := (r.min_w + r.max_w) / 2

/-- Representative depth `(r.min_d + r.max_d)/2`. -/
def repD (r : Room) : ℚ := (r.min_d + r.max_d) / 2

/-- The sorted top (north) row of a request list (lines 64-80). -/
def topRow (reqs : List Room) : List Room :=
  sortByKey sort_key (reqs.filter fun r => isTopRoom r)

/-- The sorted bottom (south) row of a request list (lines 64-81). -/
def bottomRow (reqs : List Room) : List Room :=
  sortByKey sort_key (reqs.filter fun r => !isTopRoom r)

/-- Average representative depth of a row (lines 84-85); `0` for an empty row. -/
def avgD (l : List Room) : ℚ :=
  if l = [] then 0 else (l.map repD).sum / (l.length : ℚ)

/-- Top-row height `h_top` (lines 87-91): the plot depth is split
proportionally to the rows' average representative depths, guarding the total
with `1` when it is `0`. -/
def hTop (pd : ℚ) (reqs : List Room) : ℚ :=
  let t := avgD (topRow reqs) + avgD (bottomRow reqs)
  avgD (topRow reqs) / (if t = 0 then 1 else t) * pd

/-- Bottom-row height `h_bottom = p_d - h_top` (line 92). -/
def hBottom (pd : ℚ) (reqs : List Room) : ℚ := pd - hTop pd reqs

/-- Row total representative width (lines 96 and 115); `1` for an empty row. -/
def totalW (l : List Room) : ℚ := if l = [] then 1 else (l.map repW).sum

/-- `mkPlaced r x0 y0 x1 y1` models `room.current_poly = box(x0, y0, x1, y1)`
plus `room.center = (poly.centroid.x, poly.centroid.y)`. -/
def mkPlaced (r : Room) (x0 y0 x1 y1 : ℚ) : PlacedRoom :=
  ⟨r.name, r.layer, x0, y0, x1, y1, ((x0 + x1) / 2, (y0 + y1) / 2)⟩

/-- One row-placement loop of `generate_layout` (lines 98-111 and 117-131):
rooms are placed left to right from `curx`, each with proportional rendered
width `repW r / tw * pw`, and the last room of the row is snapped so that its
right edge is exactly `pw`. -/
def placeRow (tw pw y0 y1 : ℚ) : List Room → ℚ → List PlacedRoom
  | [], _ => []
  | [r], curx => [mkPlaced r curx y0 pw y1]
  | r :: r2 :: rest, curx =>
      mkPlaced r curx y0 (curx + repW r / tw * pw) y1 ::
        placeRow tw pw y0 y1 (r2 :: rest) (curx + repW r / tw * pw)

/-- The one runtime failure reachable in `generate_layout`: Python raises
`ZeroDivisionError` on `w_req / total_w` when a non-empty row's total
representative width is `0`. -/
inductive LayoutError where
  | zeroDivision
  deriving DecidableEq, Repr

/-- The layout planner `generate_layout(plot_size, requirements, constraints)`
(`spatial_optimizer.py` lines 53-133).  The function performs no input
validation; its only failure is the division by zero above.  The
`constraints` argument is accepted and never read, exactly as in the source. -/
def generate_layout (plot_size : ℚ × ℚ) (requirements : List Room)
    (constraints : List VastuConstraint) : Except LayoutError (List PlacedRoom) :=
  let pw := plot_size.1
  let pd := plot_size.2
  let bot := bottomRow requirements
  let top := topRow requirements
  if bot ≠ [] ∧ (bot.map repW).sum = 0 then .error .zeroDivision
  else if top ≠ [] ∧ (top.map repW).sum = 0 then .error .zeroDivision
  else
    .ok (placeRow (totalW bot) pw 0 (hBottom pd requirements) bot 0 ++
      placeRow (totalW top) pw (hBottom pd requirements) pd top 0)

/- Wall and door drafting engine (`vastu_engine.py`). -/

/-- A 2D point in plot units. -/
abbrev Point := ℚ × ℚ

/-- A canonical wall segment: an ordered pair of rounded endpoints. -/
abbrev Seg := Point × Point

/-- Python's `round` to an integer on exact rationals: round half to even. -/
def pyRound (y : ℚ) : ℤ :=
  let f := ⌊y⌋
  let r := y - (f : ℚ)
  if r < 1 / 2 then f
  else if 1 / 2 < r then f + 1
  else if f % 2 = 0 then f else f + 1

/-- `round(x, 3)` from the segment canonicalization (`vastu_engine.py` line 113). -/
def round3 (x : ℚ) : ℚ := (pyRound (x * 1000) : ℚ) / 1000

/-- Strict lexicographic comparison of 2D points, Python's tuple `<`. -/
def ptLT (a b : Point) : Bool :=
  decide (a.1 < b.1) || (decide (a.1 = b.1) && decide (a.2 < b.2))

/-- Canonicalization of a wall segment (line 113): round both endpoints to 3
decimals and sort the two rounded points (Python's `sorted` on a two-element
list swaps exactly when the second point is strictly smaller). -/
def canonSeg (p1 p2 : Point) : Seg :=
  let q1 : Point := (round3 p1.1, round3 p1.2)
  let q2 : Point := (round3 p2.1, round3 p2.2)
  if ptLT q2 q1 then (q2, q1) else (q1, q2)

/-- The four boundary edges of a placed room, in the order produced by
`list(room.current_poly.exterior.coords)` for a shapely `box`:
counter-clockwise starting from `(maxx, miny)`. -/
def roomEdges (r : PlacedRoom) : List (Point × Point) :=
  [((r.maxx, r.miny), (r.maxx, r.maxy)),
   ((r.maxx, r.maxy), (r.minx, r.maxy)),
   ((r.minx, r.maxy), (r.minx, r.miny)),
   ((r.minx, r.miny), (r.maxx, r.miny))]

/-- Exterior test of one raw (unrounded) edge (lines 116-119): the whole edge
lies within tolerance `0.01` of one of the four plot border lines. -/
def isExtEdge (pw pd : ℚ) (e : Point × Point) : Bool :=
  decide ((e.1.1 ≤ 0.01 ∧ e.2.1 ≤ 0.01) ∨
    (e.1.1 ≥ pw - 0.01 ∧ e.2.1 ≥ pw - 0.01) ∨
    (e.1.2 ≤ 0.01 ∧ e.2.2 ≤ 0.01) ∨
    (e.1.2 ≥ pd - 0.01 ∧ e.2.2 ≥ pd - 0.01))

/-- The accumulating update of the `drawn_segments` dict (lines 121-124): a
new key is recorded with its classification; an existing key is upgraded to
exterior when the new contribution is exterior (`true` means exterior,
`false` interior). -/
def insertSeg : List (Seg × Bool) → Seg → Bool → List (Seg × Bool)
  | [], k, ext => [(k, ext)]
  | (k', b) :: rest, k, ext =>
      if k' = k then (k', b || ext) :: rest else (k', b) :: insertSeg rest k ext

/-- Association-list lookup: `drawn_segments[seg]` and `seg in drawn_segments`. -/
def lookupSeg : List (Seg × Bool) → Seg → Option Bool
  | [], _ => none
  | (k, b) :: rest, s => if k = s then some b else lookupSeg rest s

/-- Folding a list of raw edges into the segment map (the edge loop of the
segment analysis, lines 111-124). -/
def segFold (pw pd : ℚ) (m : List (Seg × Bool)) (es : List (Point × Point)) :
    List (Seg × Bool) :=
  es.foldl (fun acc e => insertSeg acc (canonSeg e.1 e.2) (isExtEdge pw pd e)) m

/-- The full `drawn_segments` map built by the segment analysis over all rooms
(lines 105-124). -/
def drawn_segments (pw pd : ℚ) (rooms : List PlacedRoom) : List (Seg × Bool) :=
  segFold pw pd [] (rooms.flatMap roomEdges)

/-- The canonical segments of one room in edge order: `room_segments[room.name]`. -/
def roomSegs (r : PlacedRoom) : List Seg :=
  (roomEdges r).map fun e => canonSeg e.1 e.2

/-- Insert-or-replace for a Python dict keyed by room name; the position of an
existing key is preserved, as for Python dicts. -/
def dictSet (k : String) (v : List Seg) :
    List (String × List Seg) → List (String × List Seg)
  | [] => [(k, v)]
  | (k', v') :: rest => if k' = k then (k, v) :: rest else (k', v') :: dictSet k v rest

/-- The `room_segments` dict (lines 103-114): room name to that room's list of
canonical segments; a duplicated room name overwrites its previous entry. -/
def room_segments (rooms : List PlacedRoom) : List (String × List Seg) :=
  rooms.foldl (fun m r => dictSet r.name (roomSegs r) m) []

/-- Squared Euclidean length of a segment (`math.dist` squared). -/
def segLenSq (s : Seg) : ℚ := (s.2.1 - s.1.1) ^ 2 + (s.2.2 - s.1.2) ^ 2

/-- Success of `add_door_swing(msp, p1, p2, width)` (lines 54-75): the door is
drawn and `True` returned exactly when the segment length `L` satisfies
`not (L < width + 0.2)`; the test is expressed on squares, equivalent for the
non-negative `width + 0.2` arising from the engine's fixed width `0.9`. -/
def add_door_swing (p1 p2 : Point) (width : ℚ) : Bool :=
  decide ((width + 0.2) ^ 2 ≤ segLenSq (p1, p2))

/-- Stable insertion for the descending sort by segment length
(`segments.sort(key=lambda s: math.dist(s[0], s[1]), reverse=True)`, line 142). -/
def insDesc (a : Seg) : List Seg → List Seg
  | [] => [a]
  | b :: l => if segLenSq b ≤ segLenSq a then a :: b :: l else b :: insDesc a l

/-- Stable descending sort by segment length, matching Python's stable sort
with `reverse=True`. -/
def sortLenDesc : List Seg → List Seg
  | [] => []
  | a :: l => insDesc a (sortLenDesc l)

/-- The inner loop of the door pass for one room (lines 143-148): walk the
room's segments longest first, skip segments not classified interior or
already carrying a door, place a door on the first remaining segment where
`add_door_swing` succeeds, then stop for this room (`break`). -/
def tryDoorSegs (dmap : List (Seg × Bool)) (placed : List Seg) : List Seg → Option Seg
  | [] => none
  | s :: rest =>
      if lookupSeg dmap s = some false ∧ s ∉ placed then
        if add_door_swing s.1 s.2 0.9 then some s else tryDoorSegs dmap placed rest
      else tryDoorSegs dmap placed rest

/-- The door pass over all rooms (lines 140-148), threading the `placed_doors`
set; returns the `(room name, segment)` pairs of the doors actually placed. -/
def doorPass (dmap : List (Seg × Bool)) :
    List (String × List Seg) → List Seg → List (String × Seg)
  | [], _ => []
  | (n, segs) :: rest, placed =>
      match tryDoorSegs dmap placed (sortLenDesc segs) with
      | some s => (n, s) :: doorPass dmap rest (s :: placed)
      | none => doorPass dmap rest placed

/-- The doors placed by `generate_ai_detailed_plan` for a list of placed rooms. -/
def plan_doors (pw pd : ℚ) (rooms : List PlacedRoom) : List (String × Seg) :=
  doorPass (drawn_segments pw pd rooms) (room_segments rooms) []

/-- The exterior offset direction (lines 130-134), computed from the canonical
first endpoint `p1` of the segment only. -/
def offsetDir (pw pd : ℚ) (p1 : Point) : ℚ × ℚ :=
  if p1.1 ≤ 0.01 then (1, 0)
  else if p1.1 ≥ pw - 0.01 then (-1, 0)
  else if p1.2 ≤ 0.01 then (0, 1)
  else if p1.2 ≥ pd - 0.01 then (0, -1)
  else (0, 0)

/-- The two wall lines emitted by `draw_wall_with_hatch` (lines 29-52): outer
line `o1-o2` and inner line `i1-i2`, with the hatch filled between them. -/
structure Wall where
  o1 : Point
  o2 : Point
  i1 : Point
  i2 : Point
  deriving DecidableEq, Repr

/-- `draw_wall_with_hatch(msp, p1, p2, thickness, offset_dir)` in the
directional case `offset_dir is not None` used for exterior walls
(lines 29-52): `none` when the segment is degenerate (`L < 0.001`, expressed
on squares), otherwise the outer line is the segment itself and the inner
line is the segment translated by `offset_dir * thickness`. -/
def draw_wall_with_hatch (p1 p2 : Point) (thickness : ℚ) (offset_dir : ℚ × ℚ) :
    Option Wall :=
  if segLenSq (p1, p2) < (0.001 : ℚ) ^ 2 then none
  else
    some ⟨p1, p2,
      (p1.1 + offset_dir.1 * thickness, p1.2 + offset_dir.2 * thickness),
      (p2.1 + offset_dir.1 * thickness, p2.2 + offset_dir.2 * thickness)⟩

/- Concrete rooms of the specification's example scenario. -/

/-- Example room `Living(min 3.6 x 4.0, max 5.4 x 6.0)`. -/
def exLiving : Room := ⟨"Living", 3.6, 4.0, 5.4, 6.0, 1, "A-WALL"⟩

/-- Example room `Kitchen(min 2.4 x 2.8, max 3.6 x 4.2)`. -/
def exKitchen : Room := ⟨"Kitchen", 2.4, 2.8, 3.6, 4.2, 1, "A-WALL"⟩

/-- Example room `MasterBed(min 3.2 x 3.6, max 4.8 x 5.4)`. -/
def exMasterBed : Room := ⟨"MasterBed", 3.2, 3.6, 4.8, 5.4, 1, "A-WALL"⟩

/-- Example room `Toilet(min 1.44 x 2.0, max 2.16 x 3.0)`. -/
def exToilet : Room := ⟨"Toilet", 1.44, 2.0, 2.16, 3.0, 1, "A-WALL"⟩

/-- The example request list of the specification's scenario. -/
def exampleRooms : List Room := [exLiving, exKitchen, exMasterBed, exToilet]

/- Basic lemmas about the canonicalization primitives. -/

lemma pyRound_intCast (m : ℤ) : pyRound (m : ℚ) = m := by
  unfold pyRound
  rw [Int.floor_intCast]
  norm_num

lemma round3_fix (x : ℚ) : round3 (round3 x) = round3 x := by
  unfold round3
  rw [div_mul_cancel₀ _ (by norm_num : (1000 : ℚ) ≠ 0), pyRound_intCast]

lemma ptLT_true_iff (a b : Point) :
    ptLT a b = true ↔ a.1 < b.1 ∨ (a.1 = b.1 ∧ a.2 < b.2) := by
  simp [ptLT]

lemma ptLT_false_iff (a b : Point) :
    ptLT a b = false ↔ ¬(a.1 < b.1 ∨ (a.1 = b.1 ∧ a.2 < b.2)) := by
  rw [← ptLT_true_iff, Bool.eq_false_iff, Ne]

lemma ptLT_asymm {a b : Point} (h : ptLT a b = true) : ptLT b a = false := by
  rw [ptLT_true_iff] at h
  rw [ptLT_false_iff]
  rcases h with h | ⟨he, h2⟩
  · rintro (h' | ⟨he', _⟩)
    · exact absurd (h.trans h') (lt_irrefl _)
    · exact absurd (he' ▸ h) (lt_irrefl _)
  · rintro (h' | ⟨_, h2'⟩)
    · exact absurd (he ▸ h') (lt_irrefl _)
    · exact absurd (h2.trans h2') (lt_irrefl _)

lemma ptLT_antisymm {a b : Point} (h1 : ptLT a b = false) (h2 : ptLT b a = false) :
    a = b := by
  rw [ptLT_false_iff] at h1 h2
  push_neg at h1 h2
  have hx : a.1 = b.1 := le_antisymm (h2.1) (h1.1)
  have hy : a.2 = b.2 := le_antisymm (h2.2 hx.symm) (h1.2 hx)
  exact Prod.ext_iff.mpr ⟨hx, hy⟩

/-- C9: canonicalizing a segment is direction-invariant and idempotent. -/
theorem canonSeg_invariant (p1 p2 : Point) :
    canonSeg p2 p1 = canonSeg p1 p2 ∧
    canonSeg (canonSeg p1 p2).1 (canonSeg p1 p2).2 = canonSeg p1 p2 := by
  have hq : ∀ u : Point, (round3 (round3 u.1), round3 (round3 u.2)) =
      ((round3 u.1, round3 u.2) : Point) := by
    intro u; rw [round3_fix, round3_fix]
  constructor
  · show canonSeg p2 p1 = canonSeg p1 p2
    unfold canonSeg
    rcases h1 : ptLT (round3 p2.1, round3 p2.2) (round3 p1.1, round3 p1.2) with _ | _
    · rcases h2 : ptLT (round3 p1.1, round3 p1.2) (round3 p2.1, round3 p2.2) with _ | _
      · have := ptLT_antisymm h1 h2
        simp [h1, h2, this]
      · simp [h1, h2]
    · have h2 := ptLT_asymm h1
      simp [h1, h2]
  · unfold canonSeg
    rcases h1 : ptLT (round3 p2.1, round3 p2.2) (round3 p1.1, round3 p1.2) with _ | _
    · simp only [if_neg (by simp [h1] : ¬ptLT (round3 p2.1, round3 p2.2)
        (round3 p1.1, round3 p1.2) = true)]
      show (if ptLT (round3 (round3 p2.1), round3 (round3 p2.2))
          (round3 (round3 p1.1), round3 (round3 p1.2)) = true then _ else _) = _
      rw [show ((round3 (round3 p2.1), round3 (round3 p2.2)) : Point) =
          (round3 p2.1, round3 p2.2) from hq p2,
        show ((round3 (round3 p1.1), round3 (round3 p1.2)) : Point) =
          (round3 p1.1, round3 p1.2) from hq p1, h1]
      simp
    · simp only [if_pos (by simp [h1] : ptLT (round3 p2.1, round3 p2.2)
        (round3 p1.1, round3 p1.2) = true)]
      show (if ptLT (round3 (round3 p1.1), round3 (round3 p1.2))
          (round3 (round3 p2.1), round3 (round3 p2.2)) = true then _ else _) = _
      rw [show ((round3 (round3 p2.1), round3 (round3 p2.2)) : Point) =
          (round3 p2.1, round3 p2.2) from hq p2,
        show ((round3 (round3 p1.1), round3 (round3 p1.2)) : Point) =
          (round3 p1.1, round3 p1.2) from hq p1, ptLT_asymm h1]
      simp

/-- C10: the layout is independent of the Vastu-quadrant constraints argument:
`generate_layout` never reads `constraints`, so any two constraint lists give
identical placed rooms. -/
theorem layout_ignores_constraints (plot : ℚ × ℚ) (reqs : List Room)
    (c1 c2 : List VastuConstraint) :
    generate_layout plot reqs c1 = generate_layout plot reqs c2 := rfl

/-- C7 counterexample: a door IS placed on a segment whose length is exactly
`doorWidth + margin = 1.1` (the code tests `L < width + 0.2` and succeeds on
equality), refuting the claim that the length must strictly exceed 1.1 and
that no door is placed on any segment of length at most 1.1. -/
theorem door_at_exact_threshold :
    add_door_swing (0, 0) (1.1, 0) 0.9 = true := by
  simp only [add_door_swing, segLenSq, decide_eq_true_eq]
  norm_num

/-- C7 amended: `add_door_swing` with the engine's width 0.9 succeeds exactly
when the segment length is at least `0.9 + 0.2 = 1.1` (stated on squared
lengths), and on failure the door loop moves on to the next segment of the
room unchanged. -/
theorem door_length_rule (p1 p2 : Point) (dmap : List (Seg × Bool))
    (placed : List Seg) (rest : List Seg) :
    (add_door_swing p1 p2 0.9 = true ↔ (1.1 : ℚ) ^ 2 ≤ segLenSq (p1, p2)) ∧
    (add_door_swing p1 p2 0.9 = false →
      tryDoorSegs dmap placed ((p1, p2) :: rest) = tryDoorSegs dmap placed rest) := by
  constructor
  · simp only [add_door_swing, decide_eq_true_eq]
    norm_num
  · intro h
    rw [tryDoorSegs]
    split
    · simp [h]
    · rfl

/-- C5 code evaluation: for the 12 x 15 plot, the full-width south exterior
segment from (0,0) to (12,0) (the bottom edge of a south row spanning the
plot) gets offset direction (1,0) — the west rule fires because the canonical
first endpoint has x = 0 <= 0.01 — instead of the inward (0,1); the resulting
inner wall line runs from (0.23,0) to (12.23,0), collinear with the plot
boundary and extending to x = 12.23 > 12, outside the plot. -/
theorem exterior_offset_south_edge_eval :
    offsetDir 12 15 (0, 0) = (1, 0) ∧
    draw_wall_with_hatch (0, 0) (12, 0) 0.23 (offsetDir 12 15 (0, 0)) =
      some ⟨(0, 0), (12, 0), (0.23, 0), (12.23, 0)⟩ ∧
    (12.23 : ℚ) > 12 := by
  refine ⟨?_, ?_, by norm_num⟩
  · norm_num [offsetDir]
  · rw [show offsetDir 12 15 (0, 0) = (1, 0) by norm_num [offsetDir]]
    rw [draw_wall_with_hatch, if_neg (by norm_num [segLenSq])]
    norm_num

/- Membership lemmas for the row classification and sorting. -/

lemma mem_insSorted (key : Room → ℕ) (a x : Room) :
    ∀ l : List Room, x ∈ insSorted key a l ↔ x = a ∨ x ∈ l := by
  intro l
  induction l with
  | nil => simp [insSorted]
  | cons b l ih =>
      rw [insSorted]
      split
      · simp
      · simp [ih]
        tauto

lemma mem_sortByKey (key : Room → ℕ) (x : Room) :
    ∀ l : List Room, x ∈ sortByKey key l ↔ x ∈ l := by
  intro l
  induction l with
  | nil => simp [sortByKey]
  | cons a l ih =>
      rw [sortByKey, mem_insSorted]
      simp [ih]

lemma mem_topRow {reqs : List Room} {r : Room} :
    r ∈ topRow reqs ↔ r ∈ reqs ∧ isTopRoom r = true := by
  rw [topRow, mem_sortByKey, List.mem_filter]

lemma mem_bottomRow {reqs : List Room} {r : Room} :
    r ∈ bottomRow reqs ↔ r ∈ reqs ∧ isTopRoom r = false := by
  rw [bottomRow, mem_sortByKey, List.mem_filter]
  simp

/-- C2 counterexample: the planner raises no error on either invalid input.
On an empty room list it returns an empty placement (no `EmptyInputError`),
and on a degenerate plot width `0` it still returns a placed room (no
`DegenerateDimensionError`). -/
theorem no_validation_counterexample :
    generate_layout (12, 15) [] [] = .ok [] ∧
    generate_layout (0, 15) [exToilet] [] =
      .ok [⟨"Toilet", "A-WALL", 0, 0, 0, 15, (0, 15 / 2)⟩] := by
  constructor
  · rfl
  · have ht : isTopRoom exToilet = true := by decide
    simp only [generate_layout, topRow, bottomRow, List.filter, ht,
      sortByKey, insSorted, hBottom, hTop, avgD, totalW, placeRow, mkPlaced]
    norm_num [exToilet, repW, repD, List.cons_ne_nil, reduceCtorEq]

/-- C2 amended: `generate_layout` performs no input validation.  For any plot
dimensions — positive or not — and any room list whose rooms have non-zero
representative widths, it returns `ok` (never an error), and for the empty
room list it returns `ok []` without any error. -/
theorem no_validation (pw pd : ℚ) (rooms : List Room) (c : List VastuConstraint)
    (hpos : ∀ r ∈ rooms, 0 < repW r) :
    (generate_layout (pw, pd) rooms c).isOk = true ∧
    (rooms = [] → generate_layout (pw, pd) rooms c = .ok []) := by
  have hbot : ¬(bottomRow rooms ≠ [] ∧ ((bottomRow rooms).map repW).sum = 0) := by
    rintro ⟨hne, hsum⟩
    have hpos' : 0 < ((bottomRow rooms).map repW).sum := by
      apply List.sum_pos
      · intro a ha
        obtain ⟨r, hr, rfl⟩ := List.mem_map.mp ha
        exact hpos r (mem_bottomRow.mp hr).1
      · simpa using hne
    exact absurd hsum (ne_of_gt hpos')
  have htop : ¬(topRow rooms ≠ [] ∧ ((topRow rooms).map repW).sum = 0) := by
    rintro ⟨hne, hsum⟩
    have hpos' : 0 < ((topRow rooms).map repW).sum := by
      apply List.sum_pos
      · intro a ha
        obtain ⟨r, hr, rfl⟩ := List.mem_map.mp ha
        exact hpos r (mem_topRow.mp hr).1
      · simpa using hne
    exact absurd hsum (ne_of_gt hpos')
  constructor
  · simp only [generate_layout, if_neg hbot, if_neg htop]
    rfl
  · rintro rfl
    simp [generate_layout, topRow, bottomRow, sortByKey, placeRow]

/-- Witness for the amended C2 theorem at a concrete degenerate input. -/
theorem no_validation_witness :
    (generate_layout (0, 15) [exToilet] []).isOk = true ∧
    ([exToilet] = ([] : List Room) → generate_layout (0, 15) [exToilet] [] = .ok []) :=
  no_validation 0 15 [exToilet] [] (by
    intro r hr
    simp only [List.mem_singleton] at hr
    subst hr
    norm_num [repW, exToilet])

/-- Shared evaluation of the planner on the specification's example scenario. -/
lemma example_layout_eval :
    generate_layout (12, 15) exampleRooms [] =
      .ok [⟨"MasterBed", "A-WALL", 0, 0, 48 / 7, 240 / 31, (24 / 7, 120 / 31)⟩,
        ⟨"Kitchen", "A-WALL", 48 / 7, 0, 12, 240 / 31, (66 / 7, 120 / 31)⟩,
        ⟨"Toilet", "A-WALL", 0, 240 / 31, 24 / 7, 15, (12 / 7, 705 / 62)⟩,
        ⟨"Living", "A-WALL", 24 / 7, 240 / 31, 12, 15, (54 / 7, 705 / 62)⟩] := by
  have hl : isTopRoom exLiving = true := by decide
  have hk : isTopRoom exKitchen = false := by decide
  have hm : isTopRoom exMasterBed = false := by decide
  have ht : isTopRoom exToilet = true := by decide
  have kl : sort_key exLiving = 1 := by decide
  have kk : sort_key exKitchen = 1 := by decide
  have km : sort_key exMasterBed = 0 := by decide
  have kt : sort_key exToilet = 0 := by decide
  simp only [generate_layout, exampleRooms, topRow, bottomRow, List.filter,
    hl, hk, hm, ht, sortByKey, insSorted, kl, kk, km, kt, hBottom, hTop, avgD,
    totalW, placeRow, mkPlaced]
  norm_num [exLiving, exKitchen, exMasterBed, exToilet, repW, repD,
    List.cons_ne_nil, reduceCtorEq]

/-- C6 counterexample: on the example input the planner does NOT put Toilet in
the south row — the placed room named Toilet has bottom edge y = 240/31, not 0
(it is in the north row, since "toilet" is a north-row keyword). -/
theorem example_rows_counterexample :
    ¬ ∀ l, generate_layout (12, 15) exampleRooms [] = Except.ok l →
        ∀ pr ∈ l, pr.name = "Toilet" → pr.miny = 0 := by
  intro h
  have h2 := h _ example_layout_eval
    ⟨"Toilet", "A-WALL", 0, 240 / 31, 24 / 7, 15, (12 / 7, 705 / 62)⟩
    (by simp) rfl
  norm_num at h2

/-- C6 amended: for the 12 x 15 example, the planner assigns MasterBed and
Kitchen to the south row (in that order) and Toilet and Living to the north
row; the rendered widths of each row total exactly 12, the two row heights sum
to exactly 15, and the shared edges are MasterBed/Kitchen at x = 48/7 and
Toilet/Living at x = 24/7 (Toilet's neighbour is Living, not MasterBed). -/
theorem example_layout_rows :
    ∃ mb kt tl lv, generate_layout (12, 15) exampleRooms [] = .ok [mb, kt, tl, lv] ∧
      mb.name = "MasterBed" ∧ kt.name = "Kitchen" ∧
      tl.name = "Toilet" ∧ lv.name = "Living" ∧
      mb.miny = 0 ∧ kt.miny = 0 ∧ tl.maxy = 15 ∧ lv.maxy = 15 ∧
      (mb.maxx - mb.minx) + (kt.maxx - kt.minx) = 12 ∧
      (tl.maxx - tl.minx) + (lv.maxx - lv.minx) = 12 ∧
      (mb.maxy - mb.miny) + (tl.maxy - tl.miny) = 15 ∧
      mb.maxx = kt.minx ∧ tl.maxx = lv.minx ∧
      mb.maxy = tl.miny ∧ kt.maxy = lv.miny := by
  refine ⟨_, _, _, _, example_layout_eval, ?_, ?_, ?_, ?_, ?_, ?_, ?_, ?_,
    ?_, ?_, ?_, ?_, ?_, ?_, ?_⟩ <;> norm_num

/- Lemmas about the door pass. -/

lemma tryDoorSegs_spec {dmap : List (Seg × Bool)} {placed : List Seg} {s : Seg} :
    ∀ {segs : List Seg}, tryDoorSegs dmap placed segs = some s →
      lookupSeg dmap s = some false ∧ s ∉ placed := by
  intro segs
  induction segs with
  | nil => intro h; simp [tryDoorSegs] at h
  | cons a rest ih =>
      intro h
      rw [tryDoorSegs] at h
      split at h
      · next hc =>
          split at h
          · cases h
            exact hc
          · exact ih h
      · exact ih h

lemma doorPass_spec (dmap : List (Seg × Bool)) :
    ∀ (rs : List (String × List Seg)) (placed : List Seg),
      ((doorPass dmap rs placed).map Prod.snd).Nodup ∧
      (∀ d ∈ doorPass dmap rs placed,
        lookupSeg dmap d.2 = some false ∧ d.2 ∉ placed) ∧
      List.Sublist ((doorPass dmap rs placed).map Prod.fst) (rs.map Prod.fst) := by
  intro rs
  induction rs with
  | nil => intro placed; simp [doorPass]
  | cons np rest ih =>
      intro placed
      obtain ⟨n, segs⟩ := np
      rw [doorPass]
      cases hm : tryDoorSegs dmap placed (sortLenDesc segs) with
      | none =>
          obtain ⟨ih1, ih2, ih3⟩ := ih placed
          exact ⟨ih1, ih2, ih3.cons n⟩
      | some s =>
          obtain ⟨ih1, ih2, ih3⟩ := ih (s :: placed)
          obtain ⟨hs1, hs2⟩ := tryDoorSegs_spec hm
          refine ⟨?_, ?_, ?_⟩
          · simp only [List.map_cons, List.nodup_cons]
            refine ⟨?_, ih1⟩
            intro hmem
            obtain ⟨d, hd, hds⟩ := List.mem_map.mp hmem
            exact (ih2 d hd).2 (hds ▸ List.mem_cons_self s placed)
          · intro d hd
            rcases List.mem_cons.mp hd with rfl | hd'
            · exact ⟨hs1, hs2⟩
            · obtain ⟨h1, h2⟩ := ih2 d hd'
              exact ⟨h1, fun hp => h2 (List.mem_cons_of_mem s hp)⟩
          · simpa using ih3.cons₂ n

/- Key-uniqueness of the room_segments dict. -/

lemma dictSet_keys (k : String) (v : List Seg) :
    ∀ m : List (String × List Seg), (dictSet k v m).map Prod.fst =
      if k ∈ m.map Prod.fst then m.map Prod.fst else m.map Prod.fst ++ [k] := by
  intro m
  induction m with
  | nil => simp [dictSet]
  | cons kv rest ih =>
      obtain ⟨k', v'⟩ := kv
      rw [dictSet]
      by_cases hk : k' = k
      · subst hk
        simp
      · rw [if_neg hk]
        simp only [List.map_cons, ih]
        by_cases hmem : k ∈ rest.map Prod.fst
        · simp [hmem, Ne.symm hk]
        · simp [hmem, Ne.symm hk]

lemma dictSet_keys_nodup {k : String} {v : List Seg} {m : List (String × List Seg)}
    (h : (m.map Prod.fst).Nodup) : ((dictSet k v m).map Prod.fst).Nodup := by
  rw [dictSet_keys]
  split
  · exact h
  · next hk =>
      rw [List.nodup_append]
      exact ⟨h, List.nodup_singleton k, by simpa using hk⟩

lemma room_segments_keys_nodup (rooms : List PlacedRoom) :
    ((room_segments rooms).map Prod.fst).Nodup := by
  have key : ∀ (l : List PlacedRoom) (m : List (String × List Seg)),
      (m.map Prod.fst).Nodup →
      ((l.foldl (fun acc r => dictSet r.name (roomSegs r) acc) m).map Prod.fst).Nodup := by
    intro l
    induction l with
    | nil => intro m hm; simpa using hm
    | cons r rest ih =>
        intro m hm
        exact ih _ (dictSet_keys_nodup hm)
  exact key rooms [] (by simp)

/-- C3: in every generated drawing, no canonical segment receives more than
one door, every door sits on a segment classified interior (so a segment
classified exterior never receives a door), and each room places at most one
door — the door pass emits at most one entry per room name, and room names in
`room_segments` are unique. -/
theorem doors_invariant (pw pd : ℚ) (rooms : List PlacedRoom) :
    ((plan_doors pw pd rooms).map Prod.snd).Nodup ∧
    (∀ d ∈ plan_doors pw pd rooms,
      lookupSeg (drawn_segments pw pd rooms) d.2 = some false) ∧
    ((plan_doors pw pd rooms).map Prod.fst).Nodup := by
  obtain ⟨h1, h2, h3⟩ :=
    doorPass_spec (drawn_segments pw pd rooms) (room_segments rooms) []
  exact ⟨h1, fun d hd => (h2 d hd).1, h3.nodup (room_segments_keys_nodup rooms)⟩

/- Characterization of the accumulated segment map. -/

/-- Whether some edge in `es` canonicalizes to `s`. -/
def edgesContrib (es : List (Point × Point)) (s : Seg) : Bool :=
  es.any fun e => decide (canonSeg e.1 e.2 = s)

/-- Whether some edge in `es` canonicalizes to `s` and passes the exterior
boundary test. -/
def edgesExt (pw pd : ℚ) (es : List (Point × Point)) (s : Seg) : Bool :=
  es.any fun e => decide (canonSeg e.1 e.2 = s) && isExtEdge pw pd e

/-- Whether some room contributes an edge canonicalizing to `s`. -/
def hasContrib (rooms : List PlacedRoom) (s : Seg) : Bool :=
  rooms.any fun r => (roomEdges r).any fun e => decide (canonSeg e.1 e.2 = s)

/-- Whether some room contributes an exterior-classified edge for `s`. -/
def hasExtContrib (pw pd : ℚ) (rooms : List PlacedRoom) (s : Seg) : Bool :=
  rooms.any fun r => (roomEdges r).any fun e =>
    decide (canonSeg e.1 e.2 = s) && isExtEdge pw pd e

lemma lookupSeg_insertSeg (k : Seg) (ext : Bool) (s : Seg) :
    ∀ m : List (Seg × Bool), lookupSeg (insertSeg m k ext) s =
      if s = k then some ((lookupSeg m s).getD false || ext) else lookupSeg m s := by
  intro m
  induction m with
  | nil =>
      simp only [insertSeg, lookupSeg]
      by_cases hs : k = s
      · simp [hs]
      · simp [hs, Ne.symm hs]
  | cons kb rest ih =>
      obtain ⟨k', b⟩ := kb
      simp only [insertSeg]
      by_cases hk : k' = k
      · simp only [if_pos hk, lookupSeg]
        by_cases hs : k' = s
        · have hsk : s = k := by rw [← hs, hk]
          simp [hs, hsk]
        · have hsk : ¬(s = k) := fun h => hs (by rw [hk, ← h])
          simp [hs, hsk]
      · simp only [if_neg hk, lookupSeg, ih]
        by_cases hs : k' = s
        · have hsk : ¬(s = k) := fun h => hk (by rw [hs, h])
          simp [hs, hsk]
        · simp [hs]

lemma lookupSeg_segFold (pw pd : ℚ) (s : Seg) :
    ∀ (es : List (Point × Point)) (m : List (Seg × Bool)),
      lookupSeg (segFold pw pd m es) s =
        match lookupSeg m s with
        | some b => some (b || edgesExt pw pd es s)
        | none => if edgesContrib es s then some (edgesExt pw pd es s) else none := by
  intro es
  induction es with
  | nil =>
      intro m
      simp only [segFold, List.foldl_nil, edgesExt, edgesContrib, List.any_nil]
      cases lookupSeg m s <;> simp
  | cons e rest ih =>
      intro m
      have hstep : segFold pw pd m (e :: rest) =
          segFold pw pd (insertSeg m (canonSeg e.1 e.2) (isExtEdge pw pd e)) rest := rfl
      have hcontrib : edgesContrib (e :: rest) s =
          (decide (canonSeg e.1 e.2 = s) || edgesContrib rest s) := by
        simp [edgesContrib]
      have hext : edgesExt pw pd (e :: rest) s =
          ((decide (canonSeg e.1 e.2 = s) && isExtEdge pw pd e) ||
            edgesExt pw pd rest s) := by
        simp [edgesExt]
      rw [hstep, ih, lookupSeg_insertSeg, hcontrib, hext]
      by_cases hs : s = canonSeg e.1 e.2
      · rw [decide_eq_true hs.symm, if_pos hs]
        cases h : lookupSeg m s with
        | some b => simp [Bool.or_assoc]
        | none => simp
      · rw [decide_eq_false (fun h => hs h.symm), if_neg hs]
        cases h : lookupSeg m s with
        | some b => simp
        | none => simp

lemma any_flatMap {α β : Type} (l : List α) (f : α → List β) (p : β → Bool) :
    (l.flatMap f).any p = l.any fun a => (f a).any p := by
  induction l with
  | nil => rfl
  | cons a rest ih => simp [List.any_append, ih]

lemma drawn_segments_char (pw pd : ℚ) (rooms : List PlacedRoom) (s : Seg) :
    lookupSeg (drawn_segments pw pd rooms) s =
      if hasContrib rooms s then some (hasExtContrib pw pd rooms s) else none := by
  rw [drawn_segments, lookupSeg_segFold]
  show (if edgesContrib (rooms.flatMap roomEdges) s then
      some (edgesExt pw pd (rooms.flatMap roomEdges) s) else none) = _
  rw [show edgesContrib (rooms.flatMap roomEdges) s = hasContrib rooms s from
      any_flatMap rooms roomEdges _,
    show edgesExt pw pd (rooms.flatMap roomEdges) s = hasExtContrib pw pd rooms s from
      any_flatMap rooms roomEdges _]

lemma hasExtContrib_hasContrib {pw pd : ℚ} {rooms : List PlacedRoom} {s : Seg}
    (h : hasExtContrib pw pd rooms s = true) : hasContrib rooms s = true := by
  rw [hasExtContrib, List.any_eq_true] at h
  obtain ⟨r, hr, he⟩ := h
  rw [List.any_eq_true] at he
  obtain ⟨e, hee, hp⟩ := he
  rw [Bool.and_eq_true] at hp
  exact List.any_eq_true.mpr ⟨r, hr, List.any_eq_true.mpr ⟨e, hee, hp.1⟩⟩

lemma perm_any {α : Type} {l1 l2 : List α} (h : l1.Perm l2) (p : α → Bool) :
    l1.any p = l2.any p := by
  cases hb : l2.any p with
  | true =>
      rw [List.any_eq_true] at hb ⊢
      obtain ⟨x, hx, hp⟩ := hb
      exact ⟨x, h.mem_iff.mpr hx, hp⟩
  | false =>
      rw [List.any_eq_false] at hb ⊢
      intro x hx
      exact hb x (h.mem_iff.mp hx)

/-- C4: the final classification of a canonical segment is exterior iff some
contributing room edge passes the plot-boundary test; the final lookup is the
same for any permutation of the room processing order; and once a map records
a segment as exterior, no later contribution ever changes it back. -/
theorem exterior_sticky (pw pd : ℚ) (rooms rooms2 : List PlacedRoom) (s : Seg)
    (hperm : rooms.Perm rooms2) :
    (lookupSeg (drawn_segments pw pd rooms) s = some true ↔
      hasExtContrib pw pd rooms s = true) ∧
    lookupSeg (drawn_segments pw pd rooms) s =
      lookupSeg (drawn_segments pw pd rooms2) s ∧
    (∀ (m : List (Seg × Bool)) (es : List (Point × Point)),
      lookupSeg m s = some true → lookupSeg (segFold pw pd m es) s = some true) := by
  refine ⟨?_, ?_, ?_⟩
  · rw [drawn_segments_char]
    by_cases hc : hasContrib rooms s = true
    · simp [hc]
    · have hx : hasExtContrib pw pd rooms s ≠ true := fun h =>
        hc (hasExtContrib_hasContrib h)
      simp only [Bool.not_eq_true] at hx
      simp [hc, hx]
  · rw [drawn_segments_char, drawn_segments_char]
    rw [show hasContrib rooms s = hasContrib rooms2 s from perm_any hperm _,
      show hasExtContrib pw pd rooms s = hasExtContrib pw pd rooms2 s from
        perm_any hperm _]
  · intro m es hm
    rw [lookupSeg_segFold, hm]
    simp

/-- Example placed room occupying the west half of a 12 x 15 plot. -/
def exPlacedA : PlacedRoom := ⟨"A", "A-WALL", 0, 0, 6, 15, (3, 15 / 2)⟩

/-- Example placed room occupying the east half of a 12 x 15 plot. -/
def exPlacedB : PlacedRoom := ⟨"B", "A-WALL", 6, 0, 12, 15, (9, 15 / 2)⟩

/-- The shared wall segment between the two example placed rooms. -/
def exSharedSeg : Seg := ((6, 0), (6, 15))

/-- Witness for the C4 theorem at a concrete two-room layout and its swap. -/
theorem exterior_sticky_witness :
    (lookupSeg (drawn_segments 12 15 [exPlacedA, exPlacedB]) exSharedSeg = some true ↔
      hasExtContrib 12 15 [exPlacedA, exPlacedB] exSharedSeg = true) ∧
    lookupSeg (drawn_segments 12 15 [exPlacedA, exPlacedB]) exSharedSeg =
      lookupSeg (drawn_segments 12 15 [exPlacedB, exPlacedA]) exSharedSeg ∧
    (∀ (m : List (Seg × Bool)) (es : List (Point × Point)),
      lookupSeg m exSharedSeg = some true →
        lookupSeg (segFold 12 15 m es) exSharedSeg = some true) :=
  exterior_sticky 12 15 [exPlacedA, exPlacedB] [exPlacedB, exPlacedA] exSharedSeg
    (List.Perm.swap exPlacedB exPlacedA [])

/- Structural lemmas about the row placement loop. -/

lemma placeRow_length (tw pw y0 y1 : ℚ) :
    ∀ (rooms : List Room) (curx : ℚ),
      (placeRow tw pw y0 y1 rooms curx).length = rooms.length := by
  intro rooms
  induction rooms with
  | nil => intro curx; rfl
  | cons r rest ih =>
      intro curx
      cases rest with
      | nil => rfl
      | cons r2 rest2 =>
          show (mkPlaced r curx y0 (curx + repW r / tw * pw) y1 ::
            placeRow tw pw y0 y1 (r2 :: rest2) (curx + repW r / tw * pw)).length = _
          simp [ih]

lemma placeRow_head (tw pw y0 y1 : ℚ) (rooms : List Room) (curx : ℚ)
    (h : rooms ≠ []) :
    (placeRow tw pw y0 y1 rooms curx).head?.map PlacedRoom.minx = some curx := by
  cases rooms with
  | nil => exact absurd rfl h
  | cons r rest =>
      cases rest with
      | nil => rfl
      | cons r2 rest2 => rfl

lemma placeRow_getLast (tw pw y0 y1 : ℚ) :
    ∀ (rooms : List Room) (curx : ℚ), rooms ≠ [] →
      (placeRow tw pw y0 y1 rooms curx).getLast?.map PlacedRoom.maxx = some pw := by
  intro rooms
  induction rooms with
  | nil => intro curx h; exact absurd rfl h
  | cons r rest ih =>
      intro curx h
      cases rest with
      | nil => rfl
      | cons r2 rest2 =>
          have hne : placeRow tw pw y0 y1 (r2 :: rest2) (curx + repW r / tw * pw) ≠ [] := by
            intro hempty
            have hlen := placeRow_length tw pw y0 y1 (r2 :: rest2)
              (curx + repW r / tw * pw)
            rw [hempty] at hlen
            simp at hlen
          obtain ⟨pr, l', hl⟩ := List.exists_cons_of_ne_nil hne
          show (mkPlaced r curx y0 (curx + repW r / tw * pw) y1 ::
            placeRow tw pw y0 y1 (r2 :: rest2)
              (curx + repW r / tw * pw)).getLast?.map PlacedRoom.maxx = some pw
          rw [hl, List.getLast?_cons_cons, ← hl]
          exact ih _ (by simp)

lemma placeRow_maxx (tw pw y0 y1 : ℚ) :
    ∀ (rooms : List Room) (curx : ℚ) (i : ℕ), i + 1 < rooms.length →
      ((placeRow tw pw y0 y1 rooms curx)[i]?).map PlacedRoom.maxx =
        some (curx + ((rooms.take (i + 1)).map fun r => repW r / tw * pw).sum) := by
  intro rooms
  induction rooms with
  | nil => intro curx i h; simp at h
  | cons r rest ih =>
      intro curx i h
      cases rest with
      | nil => simp at h
      | cons r2 rest2 =>
          cases i with
          | zero =>
              show (((mkPlaced r curx y0 (curx + repW r / tw * pw) y1 ::
                placeRow tw pw y0 y1 (r2 :: rest2)
                  (curx + repW r / tw * pw))[0]?).map PlacedRoom.maxx) = _
              simp [mkPlaced]
          | succ k =>
              have hk : k + 1 < (r2 :: rest2).length := by
                simp only [List.length_cons] at h ⊢
                omega
              show (((mkPlaced r curx y0 (curx + repW r / tw * pw) y1 ::
                placeRow tw pw y0 y1 (r2 :: rest2)
                  (curx + repW r / tw * pw))[k + 1]?).map PlacedRoom.maxx) = _
              rw [List.getElem?_cons_succ, ih _ k hk]
              simp only [List.take_succ_cons, List.map_cons, List.sum_cons]
              congr 1
              ring

/-- C8: in every row produced by the planner (each row is `placeRow` started
at `x = 0`), the first room's left edge is exactly 0, the last room's right
edge is exactly `pw`, and every non-last room's right edge is its exact
cumulative proportional offset (only the last room is snapped). -/
theorem row_snap (tw pw y0 y1 : ℚ) (rooms : List Room) (hne : rooms ≠ []) :
    (placeRow tw pw y0 y1 rooms 0).length = rooms.length ∧
    (placeRow tw pw y0 y1 rooms 0).head?.map PlacedRoom.minx = some 0 ∧
    (placeRow tw pw y0 y1 rooms 0).getLast?.map PlacedRoom.maxx = some pw ∧
    (∀ i, i + 1 < rooms.length →
      ((placeRow tw pw y0 y1 rooms 0)[i]?).map PlacedRoom.maxx =
        some (((rooms.take (i + 1)).map fun r => repW r / tw * pw).sum)) :=
  ⟨placeRow_length tw pw y0 y1 rooms 0,
   placeRow_head tw pw y0 y1 rooms 0 hne,
   placeRow_getLast tw pw y0 y1 rooms 0 hne,
   fun i hi => by rw [placeRow_maxx tw pw y0 y1 rooms 0 i hi, zero_add]⟩

/-- Witness for C8 on a concrete two-room row. -/
theorem row_snap_witness :
    (placeRow 6.3 12 0 5 [exToilet, exLiving] 0).length =
      ([exToilet, exLiving] : List Room).length ∧
    (placeRow 6.3 12 0 5 [exToilet, exLiving] 0).head?.map PlacedRoom.minx = some 0 ∧
    (placeRow 6.3 12 0 5 [exToilet, exLiving] 0).getLast?.map PlacedRoom.maxx = some 12 ∧
    (∀ i, i + 1 < ([exToilet, exLiving] : List Room).length →
      ((placeRow 6.3 12 0 5 [exToilet, exLiving] 0)[i]?).map PlacedRoom.maxx =
        some ((([exToilet, exLiving] : List Room).take (i + 1)).map
          fun r => repW r / 6.3 * 12).sum) :=
  row_snap 6.3 12 0 5 [exToilet, exLiving] (by simp)

/- Geometry of placed rooms. -/

/-- Closed membership in a placed room's rectangle. -/
def inRect (q : Point) (pr : PlacedRoom) : Prop :=
  pr.minx ≤ q.1 ∧ q.1 ≤ pr.maxx ∧ pr.miny ≤ q.2 ∧ q.2 ≤ pr.maxy

/-- Open membership in a placed room's rectangle interior. -/
def inInterior (q : Point) (pr : PlacedRoom) : Prop :=
  pr.minx < q.1 ∧ q.1 < pr.maxx ∧ pr.miny < q.2 ∧ q.2 < pr.maxy

/-- Two placed rooms have disjoint rectangle interiors. -/
def interDisjoint (a b : PlacedRoom) : Prop :=
  ∀ q : Point, ¬(inInterior q a ∧ inInterior q b)

/-- Area of a placed room's rectangle. -/
def prArea (pr : PlacedRoom) : ℚ := (pr.maxx - pr.minx) * (pr.maxy - pr.miny)

lemma placeRow_ybounds (tw pw y0 y1 : ℚ) :
    ∀ (rooms : List Room) (curx : ℚ) (pr : PlacedRoom),
      pr ∈ placeRow tw pw y0 y1 rooms curx → pr.miny = y0 ∧ pr.maxy = y1 := by
  intro rooms
  induction rooms with
  | nil => intro curx pr hpr; simp [placeRow] at hpr
  | cons r rest ih =>
      intro curx pr hpr
      cases rest with
      | nil =>
          rw [show placeRow tw pw y0 y1 [r] curx = [mkPlaced r curx y0 pw y1] from rfl,
            List.mem_singleton] at hpr
          subst hpr
          exact ⟨rfl, rfl⟩
      | cons r2 rest2 =>
          rw [show placeRow tw pw y0 y1 (r :: r2 :: rest2) curx =
            mkPlaced r curx y0 (curx + repW r / tw * pw) y1 ::
              placeRow tw pw y0 y1 (r2 :: rest2) (curx + repW r / tw * pw) from rfl,
            List.mem_cons] at hpr
          rcases hpr with rfl | hpr
          · exact ⟨rfl, rfl⟩
          · exact ih _ _ hpr

lemma placeRow_minx_ge (tw pw y0 y1 : ℚ) :
    ∀ (rooms : List Room) (curx : ℚ),
      (∀ r ∈ rooms, 0 ≤ repW r / tw * pw) →
      ∀ pr ∈ placeRow tw pw y0 y1 rooms curx, curx ≤ pr.minx := by
  intro rooms
  induction rooms with
  | nil => intro curx _ pr hpr; simp [placeRow] at hpr
  | cons r rest ih =>
      intro curx hW pr hpr
      cases rest with
      | nil =>
          rw [show placeRow tw pw y0 y1 [r] curx = [mkPlaced r curx y0 pw y1] from rfl,
            List.mem_singleton] at hpr
          subst hpr
          exact le_refl _
      | cons r2 rest2 =>
          rw [show placeRow tw pw y0 y1 (r :: r2 :: rest2) curx =
            mkPlaced r curx y0 (curx + repW r / tw * pw) y1 ::
              placeRow tw pw y0 y1 (r2 :: rest2) (curx + repW r / tw * pw) from rfl,
            List.mem_cons] at hpr
          rcases hpr with rfl | hpr
          · exact le_refl _
          · have h1 : 0 ≤ repW r / tw * pw := hW r (by simp)
            have h2 := ih _ (fun r' hr' => hW r' (by simp [hr'])) pr hpr
            linarith

lemma placeRow_pairwise (tw pw y0 y1 : ℚ) :
    ∀ (rooms : List Room) (curx : ℚ),
      (∀ r ∈ rooms, 0 ≤ repW r / tw * pw) →
      (placeRow tw pw y0 y1 rooms curx).Pairwise interDisjoint := by
  intro rooms
  induction rooms with
  | nil => intro curx _; exact List.Pairwise.nil
  | cons r rest ih =>
      intro curx hW
      cases rest with
      | nil =>
          rw [show placeRow tw pw y0 y1 [r] curx = [mkPlaced r curx y0 pw y1] from rfl]
          exact List.pairwise_singleton _ _
      | cons r2 rest2 =>
          rw [show placeRow tw pw y0 y1 (r :: r2 :: rest2) curx =
            mkPlaced r curx y0 (curx + repW r / tw * pw) y1 ::
              placeRow tw pw y0 y1 (r2 :: rest2) (curx + repW r / tw * pw) from rfl]
          refine List.Pairwise.cons ?_ (ih _ (fun r' hr' => hW r' (by simp [hr'])))
          intro pr hpr
          rintro q ⟨hqa, hqb⟩
          have hle := placeRow_minx_ge tw pw y0 y1 (r2 :: rest2) _
            (fun r' hr' => hW r' (by simp [hr'])) pr hpr
          have h1 : q.1 < curx + repW r / tw * pw := hqa.2.1
          have h2 : pr.minx < q.1 := hqb.1
          linarith

lemma placeRow_area (tw pw y0 y1 : ℚ) :
    ∀ (rooms : List Room) (curx : ℚ), rooms ≠ [] →
      ((placeRow tw pw y0 y1 rooms curx).map prArea).sum = (pw - curx) * (y1 - y0) := by
  intro rooms
  induction rooms with
  | nil => intro curx h; exact absurd rfl h
  | cons r rest ih =>
      intro curx h
      cases rest with
      | nil =>
          rw [show placeRow tw pw y0 y1 [r] curx = [mkPlaced r curx y0 pw y1] from rfl]
          simp only [List.map_cons, List.map_nil, List.sum_cons, List.sum_nil,
            prArea, mkPlaced, add_zero]
      | cons r2 rest2 =>
          rw [show placeRow tw pw y0 y1 (r :: r2 :: rest2) curx =
            mkPlaced r curx y0 (curx + repW r / tw * pw) y1 ::
              placeRow tw pw y0 y1 (r2 :: rest2) (curx + repW r / tw * pw) from rfl,
            List.map_cons, List.sum_cons, ih _ (by simp)]
          simp only [prArea, mkPlaced]
          ring

lemma placeRow_union (tw pw y0 y1 : ℚ) :
    ∀ (rooms : List Room) (curx : ℚ), rooms ≠ [] →
      (∀ r ∈ rooms, 0 ≤ repW r / tw * pw) →
      curx + ((rooms.dropLast).map fun r => repW r / tw * pw).sum ≤ pw →
      ∀ q : Point, (∃ pr ∈ placeRow tw pw y0 y1 rooms curx, inRect q pr) ↔
        (curx ≤ q.1 ∧ q.1 ≤ pw ∧ y0 ≤ q.2 ∧ q.2 ≤ y1) := by
  intro rooms
  induction rooms with
  | nil => intro curx h; exact absurd rfl h
  | cons r rest ih =>
      intro curx h hW hsum q
      cases rest with
      | nil =>
          rw [show placeRow tw pw y0 y1 [r] curx = [mkPlaced r curx y0 pw y1] from rfl]
          simp [inRect, mkPlaced]
      | cons r2 rest2 =>
          have hWr : 0 ≤ repW r / tw * pw := hW r (by simp)
          have hW' : ∀ r' ∈ r2 :: rest2, 0 ≤ repW r' / tw * pw :=
            fun r' hr' => hW r' (by simp [hr'])
          have hsum' : (curx + repW r / tw * pw) +
              (((r2 :: rest2).dropLast).map fun r => repW r / tw * pw).sum ≤ pw := by
            have hd : (r :: r2 :: rest2).dropLast = r :: (r2 :: rest2).dropLast := rfl
            rw [hd, List.map_cons, List.sum_cons] at hsum
            linarith
          have hrest_nonneg :
              0 ≤ (((r2 :: rest2).dropLast).map fun r => repW r / tw * pw).sum := by
            apply List.sum_nonneg
            intro x hx
            obtain ⟨r', hr', rfl⟩ := List.mem_map.mp hx
            exact hW' r' ((List.dropLast_sublist (r2 :: rest2)).subset hr')
          have he_le : curx + repW r / tw * pw ≤ pw := by linarith
          have hcurx_le : curx ≤ curx + repW r / tw * pw := by linarith
          have ihq := ih (curx + repW r / tw * pw) (by simp) hW' hsum' q
          rw [show placeRow tw pw y0 y1 (r :: r2 :: rest2) curx =
            mkPlaced r curx y0 (curx + repW r / tw * pw) y1 ::
              placeRow tw pw y0 y1 (r2 :: rest2) (curx + repW r / tw * pw) from rfl]
          simp only [List.mem_cons, exists_eq_or_imp]
          constructor
          · rintro (hhead | htail)
            · have h1 : curx ≤ q.1 := hhead.1
              have h2 : q.1 ≤ curx + repW r / tw * pw := hhead.2.1
              have h3 : y0 ≤ q.2 := hhead.2.2.1
              have h4 : q.2 ≤ y1 := hhead.2.2.2
              exact ⟨h1, le_trans h2 he_le, h3, h4⟩
            · obtain ⟨h1, h2, h3, h4⟩ := ihq.mp htail
              exact ⟨le_trans hcurx_le h1, h2, h3, h4⟩
          · rintro ⟨h1, h2, h3, h4⟩
            rcases le_total q.1 (curx + repW r / tw * pw) with hle | hge
            · exact Or.inl ⟨h1, hle, h3, h4⟩
            · exact Or.inr (ihq.mpr ⟨hge, h2, h3, h4⟩)

/- Row-height and row-width arithmetic. -/

lemma row_sum_pos {l : List Room} (h : l ≠ []) (hp : ∀ r ∈ l, 0 < repW r) :
    0 < (l.map repW).sum := by
  apply List.sum_pos
  · intro a ha
    obtain ⟨r, hr, rfl⟩ := List.mem_map.mp ha
    exact hp r hr
  · simpa using h

lemma avgD_nonneg {l : List Room} (hp : ∀ r ∈ l, 0 ≤ repD r) : 0 ≤ avgD l := by
  unfold avgD
  split
  · exact le_refl 0
  · apply div_nonneg
    · apply List.sum_nonneg
      intro x hx
      obtain ⟨r, hr, rfl⟩ := List.mem_map.mp hx
      exact hp r hr
    · exact_mod_cast Nat.zero_le _

lemma avgD_pos {l : List Room} (h : l ≠ []) (hp : ∀ r ∈ l, 0 < repD r) :
    0 < avgD l := by
  unfold avgD
  rw [if_neg h]
  apply div_pos
  · apply List.sum_pos
    · intro x hx
      obtain ⟨r, hr, rfl⟩ := List.mem_map.mp hx
      exact hp r hr
    · simpa using h
  · exact_mod_cast List.length_pos.mpr h

lemma hTop_nonneg_le {pd : ℚ} {reqs : List Room} (hpd : 0 ≤ pd)
    (hat : 0 ≤ avgD (topRow reqs)) (hab : 0 ≤ avgD (bottomRow reqs)) :
    0 ≤ hTop pd reqs ∧ hTop pd reqs ≤ pd := by
  simp only [hTop]
  by_cases ht : avgD (topRow reqs) + avgD (bottomRow reqs) = 0
  · have ha : avgD (topRow reqs) = 0 := by linarith
    rw [if_pos ht, ha]
    simp [hpd]
  · rw [if_neg ht]
    have htpos : 0 < avgD (topRow reqs) + avgD (bottomRow reqs) :=
      lt_of_le_of_ne (by linarith) (Ne.symm ht)
    constructor
    · exact mul_nonneg (div_nonneg hat (le_of_lt htpos)) hpd
    · calc avgD (topRow reqs) / (avgD (topRow reqs) + avgD (bottomRow reqs)) * pd
          ≤ 1 * pd := by
            apply mul_le_mul_of_nonneg_right _ hpd
            rw [div_le_one htpos]
            linarith
        _ = pd := one_mul pd

lemma hTop_top_nil {pd : ℚ} {reqs : List Room} (h : topRow reqs = []) :
    hTop pd reqs = 0 := by
  simp only [hTop, h]
  rw [show avgD ([] : List Room) = 0 from rfl]
  simp

lemma hTop_bottom_nil {pd : ℚ} {reqs : List Room} (h : bottomRow reqs = [])
    (hat : avgD (topRow reqs) ≠ 0) : hTop pd reqs = pd := by
  simp only [hTop, h]
  rw [show avgD ([] : List Room) = 0 from rfl, add_zero, if_neg hat,
    div_self hat, one_mul]

lemma rows_partition {reqs : List Room} (h : reqs ≠ []) :
    topRow reqs ≠ [] ∨ bottomRow reqs ≠ [] := by
  obtain ⟨r, hr⟩ := List.exists_mem_of_ne_nil reqs h
  cases ht : isTopRoom r with
  | true => exact Or.inl (List.ne_nil_of_mem (mem_topRow.mpr ⟨hr, ht⟩))
  | false => exact Or.inr (List.ne_nil_of_mem (mem_bottomRow.mpr ⟨hr, ht⟩))

lemma sum_propW (l : List Room) (pw : ℚ) (h : (l.map repW).sum ≠ 0) :
    (l.map fun r => repW r / (l.map repW).sum * pw).sum = pw := by
  have hterm : ∀ r : Room, repW r / (l.map repW).sum * pw =
      repW r * (pw / (l.map repW).sum) := by
    intro r
    rw [div_mul_eq_mul_div, mul_div_assoc]
  calc (l.map fun r => repW r / (l.map repW).sum * pw).sum
      = (l.map fun r => repW r * (pw / (l.map repW).sum)).sum := by
        congr 1
        apply List.map_congr_left
        intro r _
        exact hterm r
    _ = (l.map repW).sum * (pw / (l.map repW).sum) := by
        rw [← List.sum_map_mul_right]
    _ = pw := by
        rw [mul_comm, div_mul_cancel₀ _ h]

lemma dropLast_propW_le (l : List Room) (pw tw : ℚ) (h : l ≠ [])
    (hW : ∀ r ∈ l, 0 ≤ repW r / tw * pw)
    (hsum : (l.map fun r => repW r / tw * pw).sum = pw) :
    ((l.dropLast).map fun r => repW r / tw * pw).sum ≤ pw := by
  have hsplit : (l.map fun r => repW r / tw * pw).sum =
      ((l.dropLast).map fun r => repW r / tw * pw).sum +
        repW (l.getLast h) / tw * pw := by
    conv_lhs => rw [← List.dropLast_append_getLast h]
    rw [List.map_append, List.sum_append]
    simp
  have hlast : 0 ≤ repW (l.getLast h) / tw * pw := hW _ (List.getLast_mem h)
  rw [hsum] at hsplit
  linarith

/-- C1: for valid input (positive plot dimensions, a non-empty room list, and
rooms with positive size ranges) the planner succeeds, the placed rectangles
have pairwise disjoint interiors, the sum of their areas is exactly
`pw * pd`, and their union is exactly the plot rectangle `[0,pw] x [0,pd]`. -/
theorem full_coverage (pw pd : ℚ) (reqs : List Room) (c : List VastuConstraint)
    (hpw : 0 < pw) (hpd : 0 < pd) (hne : reqs ≠ [])
    (hdim : ∀ r ∈ reqs, 0 < r.min_w ∧ 0 < r.max_w ∧ 0 < r.min_d ∧ 0 < r.max_d) :
    ∃ placed, generate_layout (pw, pd) reqs c = .ok placed ∧
      placed.Pairwise interDisjoint ∧
      (placed.map prArea).sum = pw * pd ∧
      ∀ q : Point, (∃ pr ∈ placed, inRect q pr) ↔
        0 ≤ q.1 ∧ q.1 ≤ pw ∧ 0 ≤ q.2 ∧ q.2 ≤ pd := by
  have hrepW : ∀ r ∈ reqs, 0 < repW r := by
    intro r hr
    have hd := hdim r hr
    unfold repW
    linarith [hd.1, hd.2.1]
  have hrepD : ∀ r ∈ reqs, 0 < repD r := by
    intro r hr
    have hd := hdim r hr
    unfold repD
    linarith [hd.2.2.1, hd.2.2.2]
  have hbotW : ∀ r ∈ bottomRow reqs, 0 < repW r :=
    fun r hr => hrepW r (mem_bottomRow.mp hr).1
  have htopW : ∀ r ∈ topRow reqs, 0 < repW r :=
    fun r hr => hrepW r (mem_topRow.mp hr).1
  have hbotD : ∀ r ∈ bottomRow reqs, 0 < repD r :=
    fun r hr => hrepD r (mem_bottomRow.mp hr).1
  have htopD : ∀ r ∈ topRow reqs, 0 < repD r :=
    fun r hr => hrepD r (mem_topRow.mp hr).1
  have hguard1 : ¬(bottomRow reqs ≠ [] ∧ ((bottomRow reqs).map repW).sum = 0) := by
    rintro ⟨hb, hs⟩
    exact absurd hs (ne_of_gt (row_sum_pos hb hbotW))
  have hguard2 : ¬(topRow reqs ≠ [] ∧ ((topRow reqs).map repW).sum = 0) := by
    rintro ⟨hb, hs⟩
    exact absurd hs (ne_of_gt (row_sum_pos hb htopW))
  have hok : generate_layout (pw, pd) reqs c =
      .ok (placeRow (totalW (bottomRow reqs)) pw 0 (hBottom pd reqs)
          (bottomRow reqs) 0 ++
        placeRow (totalW (topRow reqs)) pw (hBottom pd reqs) pd (topRow reqs) 0) := by
    simp only [generate_layout, if_neg hguard1, if_neg hguard2]
  have hWb : ∀ r ∈ bottomRow reqs, 0 ≤ repW r / totalW (bottomRow reqs) * pw := by
    intro r hr
    have hne' : bottomRow reqs ≠ [] := List.ne_nil_of_mem hr
    rw [totalW, if_neg hne']
    exact le_of_lt (mul_pos (div_pos (hbotW r hr) (row_sum_pos hne' hbotW)) hpw)
  have hWt : ∀ r ∈ topRow reqs, 0 ≤ repW r / totalW (topRow reqs) * pw := by
    intro r hr
    have hne' : topRow reqs ≠ [] := List.ne_nil_of_mem hr
    rw [totalW, if_neg hne']
    exact le_of_lt (mul_pos (div_pos (htopW r hr) (row_sum_pos hne' htopW)) hpw)
  have htB := hTop_nonneg_le (le_of_lt hpd)
    (avgD_nonneg fun r hr => le_of_lt (htopD r hr))
    (avgD_nonneg fun r hr => le_of_lt (hbotD r hr))
  have hb0le : 0 ≤ hBottom pd reqs := by
    unfold hBottom
    linarith [htB.2]
  have hble : hBottom pd reqs ≤ pd := by
    unfold hBottom
    linarith [htB.1]
  refine ⟨_, hok, ?_, ?_, ?_⟩
  · -- pairwise interior disjointness
    rw [List.pairwise_append]
    refine ⟨placeRow_pairwise _ _ _ _ _ _ hWb, placeRow_pairwise _ _ _ _ _ _ hWt, ?_⟩
    intro a ha b hb'
    have hya := placeRow_ybounds _ _ _ _ _ _ a ha
    have hyb := placeRow_ybounds _ _ _ _ _ _ b hb'
    rintro q ⟨hqa, hqb⟩
    have h1 : q.2 < a.maxy := hqa.2.2.2
    have h2 : b.miny < q.2 := hqb.2.2.1
    rw [hya.2] at h1
    rw [hyb.1] at h2
    linarith
  · -- total area
    rw [List.map_append, List.sum_append]
    by_cases hbne : bottomRow reqs = []
    · have htne : topRow reqs ≠ [] := by
        rcases rows_partition hne with h | h
        · exact h
        · exact absurd hbne h
      have hb0 : hBottom pd reqs = 0 := by
        rw [hBottom, hTop_bottom_nil hbne (ne_of_gt (avgD_pos htne htopD))]
        ring
      rw [hbne, show placeRow (totalW ([] : List Room)) pw 0 (hBottom pd reqs) [] 0 =
        [] from rfl]
      simp only [List.map_nil, List.sum_nil, zero_add]
      rw [placeRow_area _ _ _ _ _ _ htne, hb0]
      ring
    · by_cases htne : topRow reqs = []
      · have hbpd : hBottom pd reqs = pd := by
          rw [hBottom, hTop_top_nil htne]
          ring
        rw [htne, show placeRow (totalW ([] : List Room)) pw (hBottom pd reqs) pd [] 0 =
          [] from rfl]
        simp only [List.map_nil, List.sum_nil, add_zero]
        rw [placeRow_area _ _ _ _ _ _ hbne, hbpd]
        ring
      · rw [placeRow_area _ _ _ _ _ _ hbne, placeRow_area _ _ _ _ _ _ htne]
        ring
  · -- union is the plot rectangle
    intro q
    simp only [List.mem_append, or_and_right, exists_or]
    by_cases hbne : bottomRow reqs = []
    · have htne : topRow reqs ≠ [] := by
        rcases rows_partition hne with h | h
        · exact h
        · exact absurd hbne h
      have hb0 : hBottom pd reqs = 0 := by
        rw [hBottom, hTop_bottom_nil hbne (ne_of_gt (avgD_pos htne htopD))]
        ring
      have htw : totalW (topRow reqs) = ((topRow reqs).map repW).sum := by
        rw [totalW, if_neg htne]
      have hsumt : ((topRow reqs).map
          fun r => repW r / totalW (topRow reqs) * pw).sum = pw := by
        rw [htw]
        exact sum_propW _ pw (ne_of_gt (row_sum_pos htne htopW))
      have hUT := placeRow_union (totalW (topRow reqs)) pw (hBottom pd reqs) pd
        (topRow reqs) 0 htne hWt
        (by
          rw [zero_add]
          exact dropLast_propW_le _ pw _ htne hWt hsumt) q
      rw [hbne, show placeRow (totalW ([] : List Room)) pw 0 (hBottom pd reqs) [] 0 =
        [] from rfl]
      simp only [List.not_mem_nil, false_and, exists_false, false_or]
      rw [hUT, hb0]
    · by_cases htne : topRow reqs = []
      · have hbpd : hBottom pd reqs = pd := by
          rw [hBottom, hTop_top_nil htne]
          ring
        have htw : totalW (bottomRow reqs) = ((bottomRow reqs).map repW).sum := by
          rw [totalW, if_neg hbne]
        have hsumb : ((bottomRow reqs).map
            fun r => repW r / totalW (bottomRow reqs) * pw).sum = pw := by
          rw [htw]
          exact sum_propW _ pw (ne_of_gt (row_sum_pos hbne hbotW))
        have hUB := placeRow_union (totalW (bottomRow reqs)) pw 0 (hBottom pd reqs)
          (bottomRow reqs) 0 hbne hWb
          (by
            rw [zero_add]
            exact dropLast_propW_le _ pw _ hbne hWb hsumb) q
        rw [htne, show placeRow (totalW ([] : List Room)) pw (hBottom pd reqs) pd [] 0 =
          [] from rfl]
        simp only [List.not_mem_nil, false_and, exists_false, or_false]
        rw [hUB, hbpd]
      · have htwb : totalW (bottomRow reqs) = ((bottomRow reqs).map repW).sum := by
          rw [totalW, if_neg hbne]
        have htwt : totalW (topRow reqs) = ((topRow reqs).map repW).sum := by
          rw [totalW, if_neg htne]
        have hsumb : ((bottomRow reqs).map
            fun r => repW r / totalW (bottomRow reqs) * pw).sum = pw := by
          rw [htwb]
          exact sum_propW _ pw (ne_of_gt (row_sum_pos hbne hbotW))
        have hsumt : ((topRow reqs).map
            fun r => repW r / totalW (topRow reqs) * pw).sum = pw := by
          rw [htwt]
          exact sum_propW _ pw (ne_of_gt (row_sum_pos htne htopW))
        have hUB := placeRow_union (totalW (bottomRow reqs)) pw 0 (hBottom pd reqs)
          (bottomRow reqs) 0 hbne hWb
          (by
            rw [zero_add]
            exact dropLast_propW_le _ pw _ hbne hWb hsumb) q
        have hUT := placeRow_union (totalW (topRow reqs)) pw (hBottom pd reqs) pd
          (topRow reqs) 0 htne hWt
          (by
            rw [zero_add]
            exact dropLast_propW_le _ pw _ htne hWt hsumt) q
        rw [hUB, hUT]
        constructor
        · rintro (⟨h1, h2, h3, h4⟩ | ⟨h1, h2, h3, h4⟩)
          · exact ⟨h1, h2, h3, le_trans h4 hble⟩
          · exact ⟨h1, h2, le_trans hb0le h3, h4⟩
        · rintro ⟨h1, h2, h3, h4⟩
          rcases le_total q.2 (hBottom pd reqs) with hle | hge
          · exact Or.inl ⟨h1, h2, h3, hle⟩
          · exact Or.inr ⟨h1, h2, hge, h4⟩

/-- Witness for C1 on the concrete example scenario. -/
theorem full_coverage_witness :
    ∃ placed, generate_layout (12, 15) exampleRooms [] = .ok placed ∧
      placed.Pairwise interDisjoint ∧
      (placed.map prArea).sum = 12 * 15 ∧
      ∀ q : Point, (∃ pr ∈ placed, inRect q pr) ↔
        0 ≤ q.1 ∧ q.1 ≤ 12 ∧ 0 ≤ q.2 ∧ q.2 ≤ 15 :=
  full_coverage 12 15 exampleRooms [] (by norm_num) (by norm_num) (by simp [exampleRooms])
    (by
      intro r hr
      simp only [exampleRooms, List.mem_cons, List.not_mem_nil, or_false] at hr
      rcases hr with rfl | rfl | rfl | rfl <;>
        norm_num [exLiving, exKitchen, exMasterBed, exToilet])

end VastuArchitect
